import Mathlib

/-!
Verification development for the txcv word-translation client.

Shallow embedding of the rate limiter (src/rate_limit.rs), the batch
scheduler and retry wrapper (src/translate.rs), and the language
resolution logic (src/translate.rs, src/lang.rs).

Time is modelled in nanoseconds as `Nat`: `Instant` becomes a `Nat`
timestamp and `Duration` a `Nat` length.  The Rust code converts the
elapsed time to `f64` seconds and floors the quotient; for the whole /
fractional interval accounting that the spec describes this is exact
natural floor division, which is how it is embedded here.
-/

namespace Txcv

/-! ## src/rate_limit.rs : LeakyBucketInner -/

/-- State of `LeakyBucketInner` (src/rate_limit.rs).  `max` is the
capacity, `refill_interval` the tick length in nanoseconds,
`refill_amount` the tokens gained per tick, `tokens` the current token
count and `last_refill` the timestamp (ns) of the last applied refill. -/
structure LeakyBucketInner where
  max : Nat
  refill_interval : Nat
  refill_amount : Nat
  tokens : Nat
  last_refill : Nat
  deriving Repr, DecidableEq

namespace LeakyBucketInner

/-- `LeakyBucketInner::new` (src/rate_limit.rs:30-39): stores the given
token count unchanged and stamps `last_refill` with the current time. -/
def new (max tokens refill_interval refill_amount now : Nat) : LeakyBucketInner :=
  { max := max
    refill_interval := refill_interval
    refill_amount := refill_amount
    tokens := tokens
    last_refill := now }

/-- `LeakyBucketInner::update_tokens` (src/rate_limit.rs:44-59) at
time `now`: `refills_since` is the floored number of whole intervals
elapsed since `last_refill`; tokens grow by `refill_amount *
refills_since`, `last_refill` advances by `refill_interval *
refills_since`, then tokens are clamped to `max`. -/
def update_tokens (b : LeakyBucketInner) (now : Nat) : LeakyBucketInner :=
  let time_passed := now - b.last_refill
  let refills_since := time_passed / b.refill_interval
  { b with
    tokens := Nat.min (b.tokens + b.refill_amount * refills_since) b.max
    last_refill := b.last_refill + b.refill_interval * refills_since }

/-- The whole refill intervals needed to cover a shortfall of
`tokens_needed` tokens, as computed in `LeakyBucketInner::acquire`
(src/rate_limit.rs:71-76): floor quotient, plus one when the
remainder is nonzero. -/
def refills_needed_for (tokens_needed refill_amount : Nat) : Nat :=
  let q := tokens_needed / refill_amount
  if tokens_needed % refill_amount > 0 then q + 1 else q

/-- Result of one `acquire` call: the bucket state after the debit, whether
the task slept, and the time at which the debit happened. -/
structure AcquireResult where
  state : LeakyBucketInner
  slept : Bool
  wake_time : Nat
  deriving Repr, DecidableEq

/-- `LeakyBucketInner::acquire` (src/rate_limit.rs:61-90) started at time
`now`.  First `update_tokens`; if the tokens fall short of `amount`,
compute the whole intervals needed, sleep until
`last_refill + refill_interval * refills_needed` (the sleep duration
saturates at zero as `Instant::duration_since` does), run
`update_tokens` again, and finally debit `amount`. -/
def acquire (b : LeakyBucketInner) (amount now : Nat) : AcquireResult :=
  let b1 := b.update_tokens now
  if b1.tokens < amount then
    let tokens_needed := amount - b1.tokens
    let refills_needed := refills_needed_for tokens_needed b.refill_amount
    let target_time := b1.last_refill + b.refill_interval * refills_needed
    let wake := now + (target_time - now)
    let b2 := b1.update_tokens wake
    { state := { b2 with tokens := b2.tokens - amount }, slept := true, wake_time := wake }
  else
    { state := { b1 with tokens := b1.tokens - amount }, slept := false, wake_time := now }

end LeakyBucketInner

/-- `LeakyBucket::acquire` (src/rate_limit.rs:128-135): asserts
`amount <= max` and only then delegates to the inner acquire.  The
assertion failure (a Rust panic) is modelled as `none`. -/
def LeakyBucket.acquire (b : LeakyBucketInner) (amount now : Nat) :
    Option LeakyBucketInner.AcquireResult :=
  if amount ≤ b.max then some (b.acquire amount now) else none

/-! ## src/rate_limit.rs : Builder -/

/-- `Builder` (src/rate_limit.rs:140-145).  Note the source offers setter
methods only for `max`, `tokens` and `refill_interval`; there is no
setter for `refill_amount`, which therefore always keeps its default. -/
structure Builder where
  max : Option Nat
  tokens : Option Nat
  refill_interval : Option Nat
  refill_amount : Option Nat
  deriving Repr, DecidableEq

namespace Builder

/-- `Builder::new` (src/rate_limit.rs:150-157). -/
def new : Builder :=
  { max := none, tokens := none, refill_interval := none, refill_amount := none }

/-- `Builder::max` setter (src/rate_limit.rs:161-164). -/
def set_max (b : Builder) (max : Nat) : Builder := { b with max := some max }

/-- `Builder::tokens` setter (src/rate_limit.rs:170-173). -/
def set_tokens (b : Builder) (tokens : Nat) : Builder := { b with tokens := some tokens }

/-- `Builder::refill_interval` setter (src/rate_limit.rs:177-180). -/
def set_refill_interval (b : Builder) (refill_interval : Nat) : Builder :=
  { b with refill_interval := some refill_interval }

/-- `Builder::build` (src/rate_limit.rs:184-196): defaults are
`max = 120`, `tokens = 0`, `refill_interval = 1 s`, `refill_amount = 1`.
The `tokens` value is passed to `LeakyBucketInner::new` unclamped. -/
def build (b : Builder) (now : Nat) : LeakyBucketInner :=
  LeakyBucketInner.new (b.max.getD 120) (b.tokens.getD 0)
    (b.refill_interval.getD 1000000000) (b.refill_amount.getD 1) now

end Builder

/-! ## src/translate.rs : run_batch bucket configuration -/

/-- `MAX_CONCURRENT` (src/translate.rs:83). -/
def MAX_CONCURRENT : Nat := 5

/-- `REFILL_INTERVAL` (src/translate.rs:84), 100 ms in nanoseconds. -/
def REFILL_INTERVAL : Nat := 100000000

/-- The bucket built by `Translate::run_batch` (src/translate.rs:86-90):
`max = 5`, `tokens = 5`, `refill_interval = 100 ms`, and `refill_amount`
left at its default of 1 (the builder has no setter for it). -/
def run_batch_bucket (now : Nat) : LeakyBucketInner :=
  (((Builder.new.set_max MAX_CONCURRENT).set_refill_interval
      REFILL_INTERVAL).set_tokens MAX_CONCURRENT).build now

/-! ## Theorems about the refill computation -/

/-- C2: one `update_tokens` call sets `tokens` to
`min(capacity, tokens_before + refill_amount * whole_intervals)` and
advances `last_refill` by exactly `whole_intervals * refill_interval`;
the fractional remainder of the elapsed time is carried forward
(the new residue is the old elapsed time mod the interval, still below
one interval), and the configuration fields are untouched. -/
theorem update_tokens_spec (b : LeakyBucketInner) (now : Nat)
    (hi : 0 < b.refill_interval) (hn : b.last_refill ≤ now) :
    (b.update_tokens now).tokens
        = Nat.min b.max (b.tokens + b.refill_amount * ((now - b.last_refill) / b.refill_interval))
      ∧ (b.update_tokens now).last_refill
        = b.last_refill + b.refill_interval * ((now - b.last_refill) / b.refill_interval)
      ∧ now - (b.update_tokens now).last_refill = (now - b.last_refill) % b.refill_interval
      ∧ (b.update_tokens now).last_refill ≤ now
      ∧ now - (b.update_tokens now).last_refill < b.refill_interval
      ∧ (b.update_tokens now).max = b.max
      ∧ (b.update_tokens now).refill_interval = b.refill_interval
      ∧ (b.update_tokens now).refill_amount = b.refill_amount := by
  have hdm := Nat.div_add_mod (now - b.last_refill) b.refill_interval
  have hmod : (now - b.last_refill) % b.refill_interval < b.refill_interval :=
    Nat.mod_lt _ hi
  refine ⟨?_, rfl, ?_, ?_, ?_, rfl, rfl, rfl⟩
  · simp [LeakyBucketInner.update_tokens, Nat.min_comm]
  · simp only [LeakyBucketInner.update_tokens]
    omega
  · simp only [LeakyBucketInner.update_tokens]
    omega
  · simp only [LeakyBucketInner.update_tokens]
    omega

/-- `refills_needed_for n d` is the ceiling of `n / d`: it covers the
shortfall and is the least interval count that does. -/
theorem refills_needed_for_spec (n d : Nat) (hd : 0 < d) :
    n ≤ d * LeakyBucketInner.refills_needed_for n d
      ∧ ∀ k, n ≤ d * k → LeakyBucketInner.refills_needed_for n d ≤ k := by
  have hdm := Nat.div_add_mod n d
  have hlt : n % d < d := Nat.mod_lt _ hd
  unfold LeakyBucketInner.refills_needed_for
  by_cases hr : n % d > 0
  · rw [if_pos hr]
    constructor
    · have hmul : d * (n / d + 1) = d * (n / d) + d := by ring
      omega
    · intro k hk
      have h1 : d * (n / d) < n := by omega
      have h2 : d * (n / d) < d * k := lt_of_lt_of_le h1 hk
      have h3 := Nat.lt_of_mul_lt_mul_left h2
      omega
  · rw [if_neg hr]
    have hr0 : n % d = 0 := by omega
    constructor
    · omega
    · intro k hk
      have h2 : d * (n / d) ≤ d * k := by omega
      exact Nat.le_of_mul_le_mul_left h2 hd

/-- The interval count computed in the shortfall branch of `acquire`. -/
def acquire_needed (b : LeakyBucketInner) (amount now : Nat) : Nat :=
  LeakyBucketInner.refills_needed_for (amount - (b.update_tokens now).tokens) b.refill_amount

/-- The `target_time` of the shortfall branch of `acquire`
(src/rate_limit.rs:78-81). -/
def acquire_target (b : LeakyBucketInner) (amount now : Nat) : Nat :=
  (b.update_tokens now).last_refill + b.refill_interval * acquire_needed b amount now

/-- The instant at which the sleeping `acquire` wakes: `now` plus the
saturating `target_time - now`. -/
def acquire_wake (b : LeakyBucketInner) (amount now : Nat) : Nat :=
  now + (acquire_target b amount now - now)

theorem acquire_of_not_lt (b : LeakyBucketInner) (amount now : Nat)
    (h : ¬ (b.update_tokens now).tokens < amount) :
    b.acquire amount now =
      { state := { b.update_tokens now with tokens := (b.update_tokens now).tokens - amount }
        slept := false
        wake_time := now } := by
  simp only [LeakyBucketInner.acquire]
  rw [if_neg h]

theorem acquire_of_lt (b : LeakyBucketInner) (amount now : Nat)
    (h : (b.update_tokens now).tokens < amount) :
    b.acquire amount now =
      { state := { (b.update_tokens now).update_tokens (acquire_wake b amount now) with
                   tokens := ((b.update_tokens now).update_tokens
                     (acquire_wake b amount now)).tokens - amount }
        slept := true
        wake_time := acquire_wake b amount now } := by
  simp only [LeakyBucketInner.acquire, acquire_wake, acquire_target, acquire_needed]
  rw [if_pos h]

/-- C3: behaviour of `acquire(amount)` for `amount ≤ capacity`.
Part 1: if the tokens after the initial refill update cover `amount`,
the call debits immediately without suspending; otherwise it suspends
until `last_refill + neededIntervals * refill_interval` where
`neededIntervals` is the ceiling of the shortfall over `refill_amount`
(it covers the shortfall and is least doing so), the suspension is
genuine (`now <` the wake time), and on waking the refill computation is
reapplied once before the debit.  Part 2: acquiring `capacity` tokens
right after creating a bucket with initial tokens = capacity does not
suspend, and a further one-token acquire suspends for exactly one
`refill_interval`. -/
theorem acquire_spec :
    (∀ (b : LeakyBucketInner) (amount now : Nat),
      0 < b.refill_interval → 0 < b.refill_amount → b.last_refill ≤ now → amount ≤ b.max →
      ((amount ≤ (b.update_tokens now).tokens →
          (b.acquire amount now).slept = false
          ∧ (b.acquire amount now).wake_time = now
          ∧ (b.acquire amount now).state.tokens = (b.update_tokens now).tokens - amount
          ∧ (b.acquire amount now).state.last_refill = (b.update_tokens now).last_refill)
        ∧ ((b.update_tokens now).tokens < amount →
          (b.acquire amount now).slept = true
          ∧ (b.acquire amount now).wake_time
              = (b.update_tokens now).last_refill
                + b.refill_interval * acquire_needed b amount now
          ∧ now < (b.acquire amount now).wake_time
          ∧ amount - (b.update_tokens now).tokens
              ≤ b.refill_amount * acquire_needed b amount now
          ∧ (∀ k, amount - (b.update_tokens now).tokens ≤ b.refill_amount * k →
              acquire_needed b amount now ≤ k)
          ∧ (b.acquire amount now).state.tokens
              = ((b.update_tokens now).update_tokens
                  (b.acquire amount now).wake_time).tokens - amount
          ∧ (b.acquire amount now).state.last_refill
              = ((b.update_tokens now).update_tokens
                  (b.acquire amount now).wake_time).last_refill)))
    ∧ (∀ (mx intv ra now : Nat), 0 < mx → 0 < intv → 0 < ra →
        ((LeakyBucketInner.new mx mx intv ra now).acquire mx now).slept = false
        ∧ (((LeakyBucketInner.new mx mx intv ra now).acquire mx now).state.acquire 1
            ((LeakyBucketInner.new mx mx intv ra now).acquire mx now).wake_time).slept = true
        ∧ (((LeakyBucketInner.new mx mx intv ra now).acquire mx now).state.acquire 1
            ((LeakyBucketInner.new mx mx intv ra now).acquire mx now).wake_time).wake_time
            = now + intv) := by
  have main : ∀ (b : LeakyBucketInner) (amount now : Nat),
      0 < b.refill_interval → 0 < b.refill_amount → b.last_refill ≤ now → amount ≤ b.max →
      ((amount ≤ (b.update_tokens now).tokens →
          (b.acquire amount now).slept = false
          ∧ (b.acquire amount now).wake_time = now
          ∧ (b.acquire amount now).state.tokens = (b.update_tokens now).tokens - amount
          ∧ (b.acquire amount now).state.last_refill = (b.update_tokens now).last_refill)
        ∧ ((b.update_tokens now).tokens < amount →
          (b.acquire amount now).slept = true
          ∧ (b.acquire amount now).wake_time
              = (b.update_tokens now).last_refill
                + b.refill_interval * acquire_needed b amount now
          ∧ now < (b.acquire amount now).wake_time
          ∧ amount - (b.update_tokens now).tokens
              ≤ b.refill_amount * acquire_needed b amount now
          ∧ (∀ k, amount - (b.update_tokens now).tokens ≤ b.refill_amount * k →
              acquire_needed b amount now ≤ k)
          ∧ (b.acquire amount now).state.tokens
              = ((b.update_tokens now).update_tokens
                  (b.acquire amount now).wake_time).tokens - amount
          ∧ (b.acquire amount now).state.last_refill
              = ((b.update_tokens now).update_tokens
                  (b.acquire amount now).wake_time).last_refill)) := by
    intro b amount now hi ha hn hmax
    constructor
    · intro hge
      rw [acquire_of_not_lt b amount now (Nat.not_lt.mpr hge)]
      exact ⟨rfl, rfl, rfl, rfl⟩
    · intro hlt
      have hU := update_tokens_spec b now hi hn
      have hUle : (b.update_tokens now).last_refill ≤ now := hU.2.2.2.1
      have hUfrac : now - (b.update_tokens now).last_refill < b.refill_interval :=
        hU.2.2.2.2.1
      have hne : 0 < amount - (b.update_tokens now).tokens := by omega
      obtain ⟨hcov, hlst⟩ :=
        refills_needed_for_spec (amount - (b.update_tokens now).tokens) b.refill_amount ha
      have hK1 : 1 ≤ acquire_needed b amount now := by
        rcases Nat.eq_zero_or_pos (acquire_needed b amount now) with hk | hk
        · rw [acquire_needed] at hk
          rw [hk, Nat.mul_zero] at hcov
          omega
        · exact hk
      have hintvK : b.refill_interval ≤ b.refill_interval * acquire_needed b amount now := by
        have h5 := Nat.mul_le_mul_left b.refill_interval hK1
        rw [Nat.mul_one] at h5
        exact h5
      have htarget : now < acquire_target b amount now := by
        rw [acquire_target]
        omega
      have hwake : acquire_wake b amount now = acquire_target b amount now := by
        rw [acquire_wake]
        omega
      rw [acquire_of_lt b amount now hlt]
      refine ⟨rfl, ?_, ?_, hcov, hlst, rfl, rfl⟩
      · rw [hwake, acquire_target]
      · rw [hwake]
        exact htarget
  refine ⟨main, ?_⟩
  intro mx intv ra now hmx hintv hra
  have hb : (LeakyBucketInner.new mx mx intv ra now).update_tokens now
      = LeakyBucketInner.new mx mx intv ra now := by
    simp [LeakyBucketInner.update_tokens, LeakyBucketInner.new]
  have h1 := (main (LeakyBucketInner.new mx mx intv ra now) mx now hintv hra (le_refl _)
    (le_refl _)).1 (by rw [hb]; exact Nat.le_refl mx)
  obtain ⟨hs1, hw1, ht1, hl1⟩ := h1
  have hstate : ((LeakyBucketInner.new mx mx intv ra now).acquire mx now).state
      = LeakyBucketInner.new mx 0 intv ra now := by
    rw [acquire_of_not_lt _ _ _ (by rw [hb]; exact Nat.not_lt.mpr (le_refl mx)), hb]
    simp [LeakyBucketInner.new]
  have hupd : (LeakyBucketInner.new mx 0 intv ra now).update_tokens now
      = LeakyBucketInner.new mx 0 intv ra now := by
    simp [LeakyBucketInner.update_tokens, LeakyBucketInner.new]
  have hneed : acquire_needed (LeakyBucketInner.new mx 0 intv ra now) 1 now = 1 := by
    rw [acquire_needed, hupd]
    show LeakyBucketInner.refills_needed_for (1 - 0) ra = 1
    obtain ⟨hcov, hlst⟩ := refills_needed_for_spec (1 - 0) ra hra
    have h1le : 1 ≤ LeakyBucketInner.refills_needed_for (1 - 0) ra := by
      rcases Nat.eq_zero_or_pos (LeakyBucketInner.refills_needed_for (1 - 0) ra) with hk | hk
      · rw [hk, Nat.mul_zero] at hcov
        omega
      · exact hk
    have hge : LeakyBucketInner.refills_needed_for (1 - 0) ra ≤ 1 := by
      apply hlst
      omega
    omega
  have h2 := (main (LeakyBucketInner.new mx 0 intv ra now) 1 now hintv hra (le_refl _)
    hmx).2 (by rw [hupd]; show (0:Nat) < 1; exact Nat.one_pos)
  rw [hw1, hstate]
  refine ⟨hs1, h2.1, ?_⟩
  rw [h2.2.1, hupd, hneed]
  show now + intv * 1 = now + intv
  rw [Nat.mul_one]

/-- Witness for C3: for `capacity = 5`, interval 2 ns, refill amount 1,
created full at time 0: acquiring 5 does not sleep, and the following
one-token acquire sleeps and wakes exactly one interval later. -/
theorem acquire_spec_witness :
    ((LeakyBucketInner.new 5 5 2 1 0).acquire 5 0).slept = false
      ∧ (((LeakyBucketInner.new 5 5 2 1 0).acquire 5 0).state.acquire 1
          ((LeakyBucketInner.new 5 5 2 1 0).acquire 5 0).wake_time).slept = true
      ∧ ((LeakyBucketInner.new 5 4 2 1 0).acquire 1 0).wake_time = 0 := by
  have h2 := acquire_spec.2 5 2 1 0 (by decide) (by decide) (by decide)
  have h1 := (acquire_spec.1 (LeakyBucketInner.new 5 4 2 1 0) 1 0 (by decide) (by decide)
    (by decide) (by decide)).1 (by decide)
  exact ⟨h2.1, h2.2.1, h1.2.1⟩

/-- Witness for C2 at a concrete bucket: capacity 5, interval 2 ns,
amount 1, 0 tokens, last refill at 0, observed at time 5. -/
theorem update_tokens_spec_witness :
    (LeakyBucketInner.new 5 0 2 1 0).update_tokens 5
        = { max := 5, refill_interval := 2, refill_amount := 1, tokens := 2, last_refill := 4 }
      ∧ 5 - ((LeakyBucketInner.new 5 0 2 1 0).update_tokens 5).last_refill = 1 := by
  have h := update_tokens_spec (LeakyBucketInner.new 5 0 2 1 0) 5 (by decide) (by decide)
  refine ⟨?_, ?_⟩
  · decide
  · exact h.2.2.1

/-- C8: `LeakyBucket::acquire` asserts `amount ≤ max` before doing
anything else: any call with `amount` above the capacity panics
(modelled as `none`), for every bucket state and time, and any call
with `amount ≤ max` proceeds into the inner acquire. -/
theorem LeakyBucket_acquire_assert (b : LeakyBucketInner) (amount now : Nat) :
    (b.max < amount → LeakyBucket.acquire b amount now = none)
    ∧ (amount ≤ b.max → LeakyBucket.acquire b amount now = some (b.acquire amount now)) := by
  constructor
  · intro h
    simp only [LeakyBucket.acquire]
    rw [if_neg (by omega)]
  · intro h
    simp only [LeakyBucket.acquire]
    rw [if_pos h]

/-- Witness for C8: a capacity-5 bucket panics on `acquire 6` and
admits `acquire 5`. -/
theorem LeakyBucket_acquire_assert_witness :
    LeakyBucket.acquire (LeakyBucketInner.new 5 5 2 1 0) 6 0 = none
    ∧ LeakyBucket.acquire (LeakyBucketInner.new 5 5 2 1 0) 5 0
        = some ((LeakyBucketInner.new 5 5 2 1 0).acquire 5 0) :=
  ⟨(LeakyBucket_acquire_assert (LeakyBucketInner.new 5 5 2 1 0) 6 0).1 (by decide),
   (LeakyBucket_acquire_assert (LeakyBucketInner.new 5 5 2 1 0) 5 0).2 (by decide)⟩

/-- C6 failing input: `Builder::build` passes the configured starting
tokens to `LeakyBucketInner::new` without clamping, despite the
builder's own doc comment ("If set to larger than `max` at build time,
will only saturate to max").  A bucket built with `max = 5` and
`tokens = 10` holds 10 tokens immediately after construction, violating
`tokens ≤ capacity`. -/
theorem bucket_construction_exceeds_capacity :
    (((Builder.new.set_max 5).set_tokens 10).build 0).tokens = 10
    ∧ (((Builder.new.set_max 5).set_tokens 10).build 0).max = 5
    ∧ (((Builder.new.set_max 5).set_tokens 10).build 0).max
        < (((Builder.new.set_max 5).set_tokens 10).build 0).tokens := by
  decide

/-- Repeated single-token acquisitions: `acquire_seq n b now` performs
`n` successive `acquire 1` calls, each starting at the previous call's
wake time, and returns the final bucket and the time the last debit
happened. -/
def acquire_seq : Nat → LeakyBucketInner → Nat → LeakyBucketInner × Nat
  | 0, b, now => (b, now)
  | n + 1, b, now => acquire_seq n (b.acquire 1 now).state (b.acquire 1 now).wake_time

set_option maxRecDepth 8000

/-- C7 failing configuration: the bucket `run_batch` builds refills one
token every 100 ms (the builder exposes no `refill_amount` setter, so
the default 1 applies), which grants 10 tokens per second sustained;
starting from the full bucket at time 0, fifteen single-token
acquisitions are all granted within the first second (the fifteenth
debit happens exactly at t = 1 s).  Both figures exceed the 5
requests/second ceiling stated in the comment above the configuration
(src/translate.rs:82). -/
theorem run_batch_bucket_rate :
    (run_batch_bucket 0).refill_amount = 1
    ∧ (run_batch_bucket 0).refill_interval = 100000000
    ∧ (acquire_seq 15 (run_batch_bucket 0) 0).2 = 1000000000 := by
  refine ⟨rfl, rfl, ?_⟩
  decide

/-! ## src/translate.rs : tencentcloud_api_retry -/

/-- Outcome of one invocation of the wrapped remote operation:
success, a `tencentcloud::Error::Api` failure carrying an error code,
or any other (non-Api) failure. -/
inductive ApiOutcome (T : Type) where
  | ok : T → ApiOutcome T
  | apiErr : String → ApiOutcome T
  | otherErr : ApiOutcome T
  deriving Repr, DecidableEq

/-- `RATE_LIMIT_CODE` (src/translate.rs:439). -/
def RATE_LIMIT_CODE : String := "RequestLimitExceeded"

/-- Whether an outcome is the rate-limit failure the retry loop absorbs. -/
def isRateLimited {T : Type} : ApiOutcome T → Bool
  | ApiOutcome.apiErr code => code == RATE_LIMIT_CODE
  | _ => false

/-- `tencentcloud_api_retry` (src/translate.rs:432-448), driven by the
sequence of outcomes the successive invocations of `f` would produce:
an `Api` error whose code is `RATE_LIMIT_CODE` makes the loop continue;
any other outcome is returned.  `none` means the script ran out while
the loop was still retrying. -/
def tencentcloud_api_retry {T : Type} : List (ApiOutcome T) → Option (ApiOutcome T)
  | [] => none
  | ApiOutcome.apiErr code :: rest =>
      if code == RATE_LIMIT_CODE then tencentcloud_api_retry rest
      else some (ApiOutcome.apiErr code)
  | o :: _ => some o

/-- Number of invocations of `f` that `tencentcloud_api_retry` performs
on a given outcome script (all of them, when the script is exhausted
while still rate-limited). -/
def retry_attempts {T : Type} : List (ApiOutcome T) → Nat
  | [] => 0
  | ApiOutcome.apiErr code :: rest =>
      if code == RATE_LIMIT_CODE then 1 + retry_attempts rest else 1
  | _ :: _ => 1

/-- C5: `tencentcloud_api_retry` re-invokes the operation exactly while
the outcomes are rate-limited failures and returns the first outcome
that is not, having made exactly `k + 1` attempts when that outcome sits
at index `k`.  Concretely, `[RateLimited, RateLimited, Success 7]`
returns the success after 3 attempts (two retries) and
`[RateLimited, InternalError]` returns the other failure after 2
attempts (no third attempt). -/
theorem tencentcloud_api_retry_spec :
    (∀ (T : Type) (script : List (ApiOutcome T)) (k : Nat) (hk : k < script.length),
      (∀ j (hj : j < k), isRateLimited (script.get ⟨j, Nat.lt_trans hj hk⟩) = true) →
      isRateLimited (script.get ⟨k, hk⟩) = false →
      tencentcloud_api_retry script = some (script.get ⟨k, hk⟩)
      ∧ retry_attempts script = k + 1)
    ∧ tencentcloud_api_retry [ApiOutcome.apiErr RATE_LIMIT_CODE,
        ApiOutcome.apiErr RATE_LIMIT_CODE, ApiOutcome.ok (7 : Nat)]
        = some (ApiOutcome.ok 7)
    ∧ retry_attempts [ApiOutcome.apiErr RATE_LIMIT_CODE,
        ApiOutcome.apiErr RATE_LIMIT_CODE, ApiOutcome.ok (7 : Nat)] = 3
    ∧ tencentcloud_api_retry [ApiOutcome.apiErr RATE_LIMIT_CODE,
        (ApiOutcome.apiErr "InternalError" : ApiOutcome Nat)]
        = some (ApiOutcome.apiErr "InternalError")
    ∧ retry_attempts [ApiOutcome.apiErr RATE_LIMIT_CODE,
        (ApiOutcome.apiErr "InternalError" : ApiOutcome Nat)] = 2 := by
  refine ⟨?_, by decide, by decide, by decide, by decide⟩
  intro T script
  induction script with
  | nil =>
      intro k hk
      exact absurd hk (by simp)
  | cons o rest ih =>
      intro k hk hpre hstop
      cases k with
      | zero =>
          cases o with
          | ok t => exact ⟨rfl, rfl⟩
          | otherErr => exact ⟨rfl, rfl⟩
          | apiErr code =>
              have hc : (code == RATE_LIMIT_CODE) = false := by
                simpa [isRateLimited] using hstop
              constructor
              · show tencentcloud_api_retry (ApiOutcome.apiErr code :: rest) = _
                rw [tencentcloud_api_retry, hc]
                rfl
              · show retry_attempts (ApiOutcome.apiErr code :: rest) = 1
                rw [retry_attempts, hc]
                rfl
      | succ k =>
          have h0 := hpre 0 (Nat.succ_pos k)
          cases o with
          | ok t => exact absurd h0 (by simp [isRateLimited])
          | otherErr => exact absurd h0 (by simp [isRateLimited])
          | apiErr code =>
              have hc : (code == RATE_LIMIT_CODE) = true := by
                simpa [isRateLimited] using h0
              have hk' : k < rest.length := Nat.lt_of_succ_lt_succ hk
              have hrec := ih k hk'
                (fun j hj => hpre (j + 1) (Nat.succ_lt_succ hj)) hstop
              constructor
              · show tencentcloud_api_retry (ApiOutcome.apiErr code :: rest) = _
                rw [tencentcloud_api_retry, hc]
                exact hrec.1
              · show retry_attempts (ApiOutcome.apiErr code :: rest) = k + 1 + 1
                rw [retry_attempts, hc]
                rw [if_pos rfl, hrec.2]
                omega

/-- Witness for C5's general part: on the script
`[RateLimited, InternalError]` the first non-rate-limited outcome sits
at index 1, so the loop returns it after exactly 2 attempts. -/
theorem tencentcloud_api_retry_spec_witness :
    tencentcloud_api_retry [ApiOutcome.apiErr RATE_LIMIT_CODE,
        (ApiOutcome.otherErr : ApiOutcome Nat)] = some ApiOutcome.otherErr
    ∧ retry_attempts [ApiOutcome.apiErr RATE_LIMIT_CODE,
        (ApiOutcome.otherErr : ApiOutcome Nat)] = 2 := by
  have h := tencentcloud_api_retry_spec.1 Nat
    [ApiOutcome.apiErr RATE_LIMIT_CODE, ApiOutcome.otherErr] 1 (by decide)
    (fun j hj => by
      have hj0 : j = 0 := Nat.lt_one_iff.mp hj
      subst hj0
      rfl)
    (by decide)
  exact h

/-! ## src/translate.rs : the retried closure of run_batch -/

/-- Result of running one word's retried closure in `run_batch`:
final bucket state and time, the number of `acquire_one` calls made,
and the outcome returned (none when the script ran out mid-retry). -/
structure BatchWordRun (T : Type) where
  bucket : LeakyBucketInner
  time : Nat
  acquires : Nat
  result : Option (ApiOutcome T)
  deriving Repr, DecidableEq

/-- The closure `run_batch` passes to `tencentcloud_api_retry`
(src/translate.rs:98-105): every attempt first runs
`bucket.acquire_one()` and only then performs the translation call,
whose outcome the script supplies.  The retry loop re-enters the whole
closure, so each retry acquires again. -/
def run_batch_word {T : Type} :
    List (ApiOutcome T) → LeakyBucketInner → Nat → BatchWordRun T
  | [], b, now => { bucket := b, time := now, acquires := 0, result := none }
  | ApiOutcome.apiErr code :: rest, b, now =>
      if code == RATE_LIMIT_CODE then
        let w := run_batch_word rest (b.acquire 1 now).state (b.acquire 1 now).wake_time
        { w with acquires := w.acquires + 1 }
      else
        { bucket := (b.acquire 1 now).state, time := (b.acquire 1 now).wake_time
          acquires := 1, result := some (ApiOutcome.apiErr code) }
  | o :: _, b, now =>
      { bucket := (b.acquire 1 now).state, time := (b.acquire 1 now).wake_time
        acquires := 1, result := some o }

/-- C4 counterexample: with the `run_batch` bucket (5 tokens at time 0),
a word whose call succeeds immediately leaves 4 tokens, while the same
word hitting one rate-limit rejection first leaves 3 tokens — the
bucket's token count does depend on how many retries the call
undergoes, because `acquire_one` sits inside the retried closure. -/
theorem batch_retry_debits_extra_token :
    (run_batch_word [ApiOutcome.ok (0 : Nat)] (run_batch_bucket 0) 0).bucket.tokens = 4
    ∧ (run_batch_word [ApiOutcome.apiErr RATE_LIMIT_CODE, ApiOutcome.ok (0 : Nat)]
        (run_batch_bucket 0) 0).bucket.tokens = 3
    ∧ (run_batch_word [ApiOutcome.apiErr RATE_LIMIT_CODE, ApiOutcome.ok (0 : Nat)]
        (run_batch_bucket 0) 0).bucket.tokens
      ≠ (run_batch_word [ApiOutcome.ok (0 : Nat)] (run_batch_bucket 0) 0).bucket.tokens := by
  decide

/-- C4 amended: in the batch path each attempt of the retried closure —
the first try and every retry — acquires exactly one token, so the
number of tokens debited equals the number of attempts
`tencentcloud_api_retry` makes, and the closure's result is exactly the
retry wrapper's result. -/
theorem batch_retry_acquires_per_attempt :
    ∀ (T : Type) (script : List (ApiOutcome T)) (b : LeakyBucketInner) (now : Nat),
      (run_batch_word script b now).acquires = retry_attempts script
      ∧ (run_batch_word script b now).result = tencentcloud_api_retry script := by
  intro T script
  induction script with
  | nil => intro b now; exact ⟨rfl, rfl⟩
  | cons o rest ih =>
      intro b now
      cases o with
      | ok t => exact ⟨rfl, rfl⟩
      | otherErr => exact ⟨rfl, rfl⟩
      | apiErr code =>
          by_cases hc : (code == RATE_LIMIT_CODE) = true
          · have hrec := ih (b.acquire 1 now).state (b.acquire 1 now).wake_time
            constructor
            · show (run_batch_word (ApiOutcome.apiErr code :: rest) b now).acquires = _
              rw [run_batch_word, retry_attempts, if_pos hc, if_pos hc]
              simp only [hrec.1]
              omega
            · show (run_batch_word (ApiOutcome.apiErr code :: rest) b now).result = _
              rw [run_batch_word, tencentcloud_api_retry, if_pos hc, if_pos hc]
              exact hrec.2
          · rw [Bool.not_eq_true] at hc
            constructor
            · show (run_batch_word (ApiOutcome.apiErr code :: rest) b now).acquires = _
              rw [run_batch_word, retry_attempts, hc]
              rfl
            · show (run_batch_word (ApiOutcome.apiErr code :: rest) b now).result = _
              rw [run_batch_word, tencentcloud_api_retry, hc]
              rfl

/-! ## src/lang.rs and the language resolution of src/translate.rs -/

/-- `Language` (src/lang.rs:4-8). -/
inductive Language where
  | Chinese
  | English
  | Japanese
  deriving Repr, DecidableEq

/-- `Language::as_str` (src/lang.rs:11-17). -/
def Language.as_str : Language → String
  | Language.Chinese => "zh"
  | Language.English => "en"
  | Language.Japanese => "jp"

/-- `get_target_lang` (src/translate.rs:450-456). -/
def get_target_lang (source : String) : Option String :=
  if source = "zh" then some "en"
  else if source = "en" ∨ source = "jp" then some "zh"
  else none

/-- Target-language selection in `Translate::translate_word`
(src/translate.rs:247-250): an explicit target wins; otherwise the
table `get_target_lang` applies with "en" as the `unwrap_or` default. -/
def translate_target_lang (source_lang : String) (target : Option Language) : String :=
  match target with
  | none => (get_target_lang source_lang).getD "en"
  | some t => t.as_str

/-- C9: an explicit target language is used as supplied; with no
explicit target the derivation is `zh → en`, `en → zh`, `jp → zh`, and
every other source code falls back to `en` instead of erroring. -/
theorem translate_target_lang_spec :
    (∀ (s : String) (t : Language), translate_target_lang s (some t) = t.as_str)
    ∧ translate_target_lang "zh" none = "en"
    ∧ translate_target_lang "en" none = "zh"
    ∧ translate_target_lang "jp" none = "zh"
    ∧ (∀ s : String, s ≠ "zh" → s ≠ "en" → s ≠ "jp" →
        translate_target_lang s none = "en") := by
  refine ⟨fun s t => rfl, by decide, by decide, by decide, ?_⟩
  intro s h1 h2 h3
  simp only [translate_target_lang, get_target_lang]
  rw [if_neg h1, if_neg (by tauto)]
  rfl

/-- Witness for C9: the fallback branch at the concrete source code
"fr", together with an explicit-target call. -/
theorem translate_target_lang_spec_witness :
    translate_target_lang "fr" none = "en"
    ∧ translate_target_lang "fr" (some Language.Japanese) = "jp" :=
  ⟨translate_target_lang_spec.2.2.2.2 "fr" (by decide) (by decide) (by decide),
   translate_target_lang_spec.1 "fr" Language.Japanese⟩

/-- `tencentcloud::Error` as the pipeline branches on it: an `Api`
error carries a code; every other variant is opaque. -/
inductive TcError where
  | Api : String → TcError
  | Other : TcError
  deriving Repr, DecidableEq

/-- The error code absorbed by `Translate::get_source_lang`
(src/translate.rs:275). -/
def LANGUAGE_RECOGNITION_ERR : String := "FailedOperation.LanguageRecognitionErr"

/-- `Translate::get_source_lang` (src/translate.rs:265-283) as a
function of the remote detection outcome: an `Api` error with the
language-recognition code resolves to "zh"; any other error
propagates; a successful detection yields the detected code. -/
def get_source_lang (detect : Except TcError String) : Except TcError String :=
  match detect with
  | Except.error (TcError.Api code) =>
      if code == LANGUAGE_RECOGNITION_ERR then Except.ok "zh"
      else Except.error (TcError.Api code)
  | Except.error e => Except.error e
  | Except.ok lang => Except.ok lang

/-- Source-language selection in `Translate::translate_word`
(src/translate.rs:243-246): with no explicit source, detection is
called (flag `true`) and `get_source_lang` post-processes it; with an
explicit source, detection is not called (flag `false`) and the
supplied code is used. -/
def resolve_source_lang (source : Option Language) (detect : Except TcError String) :
    Bool × Except TcError String :=
  match source with
  | none => (true, get_source_lang detect)
  | some s => (false, Except.ok s.as_str)

/-- C10: without an explicit source, detection runs; a detection
failure with the language-recognition code resolves to "zh" with no
error surfaced, any other detection failure propagates, and a
successful detection is used as-is.  With an explicit source,
detection is never called. -/
theorem resolve_source_lang_spec :
    get_source_lang (Except.error (TcError.Api LANGUAGE_RECOGNITION_ERR)) = Except.ok "zh"
    ∧ (∀ code : String, code ≠ LANGUAGE_RECOGNITION_ERR →
        get_source_lang (Except.error (TcError.Api code))
          = Except.error (TcError.Api code))
    ∧ get_source_lang (Except.error TcError.Other) = Except.error TcError.Other
    ∧ (∀ lang : String, get_source_lang (Except.ok lang) = Except.ok lang)
    ∧ (∀ detect, (resolve_source_lang none detect).1 = true
        ∧ (resolve_source_lang none detect).2 = get_source_lang detect)
    ∧ (∀ (s : Language) (detect : Except TcError String),
        resolve_source_lang (some s) detect = (false, Except.ok s.as_str)) := by
  refine ⟨rfl, ?_, rfl, fun lang => rfl, fun detect => ⟨rfl, rfl⟩, fun s detect => rfl⟩
  intro code hne
  simp only [get_source_lang]
  rw [if_neg (by simpa using hne)]

/-- Witness for C10: the propagating branch at the concrete code
"InternalError". -/
theorem resolve_source_lang_spec_witness :
    get_source_lang (Except.error (TcError.Api "InternalError"))
      = Except.error (TcError.Api "InternalError") :=
  resolve_source_lang_spec.2.1 "InternalError" (by decide)

/-! ## src/translate.rs : run_batch output ordering

`Translate::run_batch` (src/translate.rs:92-114) pushes one future per
word into a `futures_util::stream::FuturesOrdered` and prints with
`try_for_each`.  `FuturesOrdered`'s contract is that the stream yields
the futures' outputs in the order the futures were enqueued, however
the underlying completions interleave: internally, completions that
arrive out of order are buffered until every earlier slot has been
yielded.  That consumer is embedded here as an explicit machine: a
cursor `next` for the first slot not yet printed, a buffer of completed
but unprinted slots, and the list of printed outputs.  A completion
event for slot `i` stores its result in the buffer, after which the
machine prints the contiguous run of slots starting at `next`. -/

/-- Consumer state of the ordered batch: `next` is the first slot not
yet emitted, `buf` holds completed-but-unemitted results by slot, and
`out` is the emitted output so far. -/
structure DrainState (β : Type) where
  next : Nat
  buf : Nat → Option β
  out : List β

/-- Emit the contiguous run of buffered slots starting at `next`
(`fuel` bounds the recursion; any `fuel` past the last pending slot is
enough). -/
def flushA {β : Type} : Nat → DrainState β → DrainState β
  | 0, s => s
  | fuel + 1, s =>
    match s.buf s.next with
    | none => s
    | some v =>
        flushA fuel
          { next := s.next + 1
            buf := fun j => if j = s.next then none else s.buf j
            out := s.out ++ [v] }

/-- One completion event: slot `i` finishes with value `v`; the
consumer then emits whatever became contiguous. -/
def drainStep {β : Type} (fuel : Nat) (s : DrainState β) (i : Nat) (v : β) : DrainState β :=
  flushA fuel { s with buf := fun j => if j = i then some v else s.buf j }

/-- Run the ordered consumer over a whole completion schedule:
`events` lists the slot indices in the order their futures complete;
slot `i` completes with result `results i`. -/
def runDrain {β : Type} (results : Nat → β) (n : Nat) (events : List Nat) : DrainState β :=
  events.foldl (fun s i => drainStep (n + 1) s i (results i))
    { next := 0, buf := fun _ => none, out := [] }

/-- The sequence `run_batch` prints, given `n` words whose per-word
futures all succeed with `results i`, when the futures complete in the
order `completions`. -/
def run_batch_outputs {β : Type} (results : Nat → β) (n : Nat) (completions : List Nat) :
    List β :=
  (runDrain results n completions).out

/-- Drain invariant before the pending flush: every slot below the
cursor has completed, the buffer holds exactly the completed slots at
or past the cursor, the output is the in-order prefix below the cursor,
and every completed slot is a real one. -/
def PreInv {β : Type} (results : Nat → β) (n : Nat) (S : List Nat) (s : DrainState β) :
    Prop :=
  (∀ j, j < s.next → j ∈ S)
  ∧ (∀ j, s.buf j = if j ∈ S ∧ s.next ≤ j then some (results j) else none)
  ∧ s.out = (List.range s.next).map results
  ∧ (∀ j, j ∈ S → j < n)

/-- Full drain invariant: additionally the cursor's slot has not
completed, so nothing more can be emitted yet. -/
def Inv {β : Type} (results : Nat → β) (n : Nat) (S : List Nat) (s : DrainState β) : Prop :=
  PreInv results n S s ∧ s.next ∉ S

theorem Inv_congr {β : Type} {results : Nat → β} {n : Nat} {S T : List Nat}
    {s : DrainState β} (hST : ∀ j, j ∈ S ↔ j ∈ T) (h : Inv results n S s) :
    Inv results n T s := by
  obtain ⟨⟨h1, h2, h3, h4⟩, h5⟩ := h
  refine ⟨⟨fun j hj => (hST j).mp (h1 j hj), fun j => ?_, h3,
    fun j hj => h4 j ((hST j).mpr hj)⟩, fun hc => h5 ((hST _).mpr hc)⟩
  rw [h2 j]
  exact if_congr (and_congr_left fun _ => hST j) rfl rfl

theorem flushA_stop {β : Type} (fuel : Nat) (s : DrainState β)
    (h : s.buf s.next = none) : flushA fuel s = s := by
  cases fuel with
  | zero => rfl
  | succ fuel => simp only [flushA, h]

theorem flushA_go {β : Type} (fuel : Nat) (s : DrainState β) (v : β)
    (h : s.buf s.next = some v) :
    flushA (fuel + 1) s
      = flushA fuel
          { next := s.next + 1
            buf := fun j => if j = s.next then none else s.buf j
            out := s.out ++ [v] } := by
  simp only [flushA, h]

theorem flushA_inv {β : Type} (results : Nat → β) (n : Nat) (S : List Nat) :
    ∀ (fuel : Nat) (s : DrainState β), PreInv results n S s →
      n + 1 ≤ fuel + s.next → Inv results n S (flushA fuel s) := by
  intro fuel
  induction fuel with
  | zero =>
      intro s hpre hfuel
      obtain ⟨h1, h2, h3, h4⟩ := hpre
      exact absurd (h4 n (h1 n (by omega))) (by omega)
  | succ fuel ih =>
      intro s hpre hfuel
      obtain ⟨h1, h2, h3, h4⟩ := hpre
      by_cases hmem : s.next ∈ S
      · have hbuf : s.buf s.next = some (results s.next) := by
          rw [h2 s.next, if_pos ⟨hmem, Nat.le_refl _⟩]
        rw [flushA_go fuel s (results s.next) hbuf]
        apply ih
        · refine ⟨?_, ?_, ?_, h4⟩
          · intro j hj
            rcases Nat.lt_succ_iff_lt_or_eq.mp hj with hj' | hj'
            · exact h1 j hj'
            · rw [hj']; exact hmem
          · intro j
            show (if j = s.next then none else s.buf j)
                = if j ∈ S ∧ s.next + 1 ≤ j then some (results j) else none
            by_cases hje : j = s.next
            · rw [if_pos hje, hje, if_neg (by omega)]
            · rw [if_neg hje, h2 j]
              refine if_congr ⟨fun hc => ⟨hc.1, by omega⟩, fun hc => ⟨hc.1, by omega⟩⟩ rfl rfl
          · show s.out ++ [results s.next] = (List.range (s.next + 1)).map results
            rw [h3, List.range_succ, List.map_append, List.map_singleton]
        · show n + 1 ≤ fuel + (s.next + 1)
          omega
      · have hbuf : s.buf s.next = none := by
          rw [h2 s.next, if_neg (fun hc => hmem hc.1)]
        rw [flushA_stop (fuel + 1) s hbuf]
        exact ⟨⟨h1, h2, h3, h4⟩, hmem⟩

theorem drainStep_inv {β : Type} (results : Nat → β) (n : Nat) (S : List Nat)
    (s : DrainState β) (i : Nat) (hinv : Inv results n S s) (hi : i < n) (hiS : i ∉ S) :
    Inv results n (i :: S) (drainStep (n + 1) s i (results i)) := by
  obtain ⟨⟨h1, h2, h3, h4⟩, h5⟩ := hinv
  have hnexti : s.next ≤ i := by
    by_contra hc
    exact hiS (h1 i (by omega))
  apply flushA_inv results n (i :: S) (n + 1)
  · refine ⟨?_, ?_, h3, ?_⟩
    · intro j hj
      exact List.mem_cons_of_mem i (h1 j hj)
    · intro j
      show (if j = i then some (results i) else s.buf j) = _
      by_cases hje : j = i
      · rw [if_pos hje, hje, if_pos ⟨List.mem_cons_self i S, hnexti⟩]
      · rw [if_neg hje, h2 j]
        refine if_congr ⟨fun hc => ⟨List.mem_cons_of_mem i hc.1, hc.2⟩,
          fun hc => ⟨?_, hc.2⟩⟩ rfl rfl
        rcases List.mem_cons.mp hc.1 with hj' | hj'
        · exact absurd hj' hje
        · exact hj'
    · intro j hj
      rcases List.mem_cons.mp hj with hj' | hj'
      · rw [hj']; exact hi
      · exact h4 j hj'
  · omega

theorem runDrain_loop {β : Type} (results : Nat → β) (n : Nat) :
    ∀ (events : List Nat) (S : List Nat) (s : DrainState β),
      Inv results n S s → events.Nodup → (∀ i ∈ events, i < n) →
      (∀ i ∈ events, i ∉ S) →
      Inv results n (events ++ S)
        (events.foldl (fun s i => drainStep (n + 1) s i (results i)) s) := by
  intro events
  induction events with
  | nil =>
      intro S s hinv _ _ _
      exact hinv
  | cons i rest ih =>
      intro S s hinv hnodup hlt hdisj
      have hstep := drainStep_inv results n S s i hinv (hlt i (List.mem_cons_self i rest))
        (hdisj i (List.mem_cons_self i rest))
      have hrest := ih (i :: S) (drainStep (n + 1) s i (results i)) hstep
        (List.Nodup.of_cons hnodup)
        (fun j hj => hlt j (List.mem_cons_of_mem i hj))
        (fun j hj hc => by
          rcases List.mem_cons.mp hc with hj' | hj'
          · exact (List.nodup_cons.mp hnodup).1 (hj' ▸ hj)
          · exact hdisj j (List.mem_cons_of_mem i hj) hj')
      refine Inv_congr (fun j => ?_) hrest
      simp only [List.mem_append, List.mem_cons]
      tauto

theorem runDrain_init_inv {β : Type} (results : Nat → β) (n : Nat) :
    Inv results n ([] : List Nat)
      { next := 0, buf := fun _ => none, out := ([] : List β) } := by
  refine ⟨⟨fun j hj => absurd hj (Nat.not_lt_zero j), fun j => ?_, rfl,
    fun j hj => absurd hj (by simp)⟩, by simp⟩
  rw [if_neg (fun hc => by simpa using hc.1)]

/-- C1: for a batch of `n` words whose per-word translations all
succeed, the printed results appear in exactly the input order, for
every order in which the concurrent futures complete: the final output
is slot 0 through slot n-1 in order, and after any prefix of the
completion schedule the emitted output is exactly slots `0..k-1` for
some `k` — so slot `i` is never emitted before slots `0..i-1`. -/
theorem run_batch_output_order {β : Type} (results : Nat → β) (n : Nat)
    (completions : List Nat) (hperm : completions.Perm (List.range n)) :
    run_batch_outputs results n completions = (List.range n).map results
    ∧ (∀ p q : List Nat, completions = p ++ q →
        ∃ k, k ≤ n ∧ run_batch_outputs results n p = (List.range k).map results) := by
  have hnodup : completions.Nodup := hperm.nodup_iff.mpr (List.nodup_range n)
  have hmem : ∀ i, i ∈ completions ↔ i < n := by
    intro i
    rw [hperm.mem_iff, List.mem_range]
  have hpart : ∀ p q : List Nat, completions = p ++ q →
      ∃ k, k ≤ n ∧ run_batch_outputs results n p = (List.range k).map results
        ∧ (∀ j, j < k → j ∈ p) ∧ k ∉ p := by
    intro p q hpq
    have hpnodup : p.Nodup := List.Nodup.sublist (List.sublist_append_left p q) (hpq ▸ hnodup)
    have hplt : ∀ i ∈ p, i < n := fun i hi =>
      (hmem i).mp (hpq ▸ List.mem_append_left q hi)
    have hloop := runDrain_loop results n p [] _ (runDrain_init_inv results n)
      hpnodup hplt (fun i _ hc => by simp at hc)
    obtain ⟨⟨g1, g2, g3, g4⟩, g5⟩ := hloop
    refine ⟨_, ?_, g3, fun j hj => ?_, fun hc => g5 (by simpa using hc)⟩
    · by_contra hc
      have hn := g1 n (by omega)
      have := g4 n hn
      omega
    · simpa using g1 j hj
  constructor
  · obtain ⟨k, hk, hout, hcomplete, hknot⟩ := hpart completions [] (by simp)
    have hkn : k = n := by
      by_contra hc
      have hkltn : k < n := by omega
      exact hknot ((hmem k).mpr hkltn)
    rw [hout, hkn]
  · intro p q hpq
    obtain ⟨k, hk, hout, _, _⟩ := hpart p q hpq
    exact ⟨k, hk, hout⟩

/-- Witness for C1: three words completing in the order 2, 0, 1 are
still printed as slots 0, 1, 2. -/
theorem run_batch_output_order_witness :
    run_batch_outputs
        (fun i => (["hello", "world", "good"].getD i "", ["你好", "世界", "好"].getD i ""))
        3 [2, 0, 1]
      = [("hello", "你好"), ("world", "世界"), ("good", "好")] := by
  have h := run_batch_output_order
    (fun i => (["hello", "world", "good"].getD i "", ["你好", "世界", "好"].getD i ""))
    3 [2, 0, 1] (by decide)
  rw [h.1]
  rfl

end Txcv
